import Mathlib

/-!
Verification development for the text-to-reverb user-study application
(src/streamlit.py). The Python source is shallowly embedded: the corpus
directory tree is a value of type Corpus, Streamlit session state is a
value of type SessionState, Python dicts are association lists with
replace-on-insert semantics, and Python exceptions are modelled with
Option (none = the call raises). All definitions follow the source file.
-/

namespace Text2Reverb

/-- Configuration constant SAMPLES_DIR from the source. -/
def SAMPLES_DIR : String := "evaluation_samples"

/-- Configuration constant RESULTS_DIR from the source. -/
def RESULTS_DIR : String := "evaluation_results"

/-- One entry of a category directory, as seen by os.listdir plus the
os.path checks the loader performs: the entry name, whether it is a
directory, which of the three audio files exist in it, and the content of
text_prompt.txt when that file exists. -/
structure SampleDir where
  name : String
  isDir : Bool
  anechoic : Bool
  generated : Bool
  groundTruth : Bool
  textPrompt : Option String
deriving DecidableEq, Repr

/-- One entry of the corpus root: the category name, whether the entry is
a directory, and its sample-group entries in listdir order. -/
structure CategoryDir where
  name : String
  isDir : Bool
  groups : List SampleDir
deriving DecidableEq, Repr

/-- The corpus as the loader observes it: whether SAMPLES_DIR exists and
its entries in listdir order. -/
structure Corpus where
  rootExists : Bool
  categories : List CategoryDir
deriving DecidableEq, Repr

/-- A catalog entry, mirroring the sample dict built by
load_evaluation_samples. -/
structure Sample where
  id : String
  category : String
  condition : String
  sample_dir : String
  text_prompt : String
  anechoic_path : String
  reverb_path : String
deriving DecidableEq, Repr

/-- Surfaced UI diagnostics: st.error and st.warning calls. -/
inductive Msg where
  | error (text : String)
  | warning (text : String)
deriving DecidableEq, Repr

/-- Parse a list of decimal digit characters; none when empty or when a
non-digit occurs. -/
def digitsToNat : List Char → Option Nat
  | [] => none
  | l => l.foldl (fun acc c =>
      match acc with
      | none => none
      | some n => if c.isDigit then some (n * 10 + (c.toNat - 48)) else none)
      (some 0)

/-- Model of the Python builtin int() applied to a string: an optional
sign followed by decimal digits; none models the ValueError raised on any
other input. (Python also tolerates surrounding whitespace and grouping
underscores between digits; that generality is not needed by any claim.) -/
def strToInt (s : String) : Option Int :=
  match s.data with
  | '-' :: rest => (digitsToNat rest).map (fun n => -(n : Int))
  | '+' :: rest => (digitsToNat rest).map (fun n => (n : Int))
  | l => (digitsToNat l).map (fun n => (n : Int))

/-- Python str.strip with no argument: drop whitespace from both ends
(computed on the char list so the kernel can evaluate it). -/
def pyStrip (s : String) : String :=
  String.mk (((s.data.dropWhile Char.isWhitespace).reverse.dropWhile
    Char.isWhitespace).reverse)

/-- Python membership test (c in s) for a single character. -/
def containsChar (s : String) (c : Char) : Bool :=
  s.data.any (fun a => a = c)

/-- Python s.split(sep) for a one-character separator, on char lists:
always at least one chunk, empty chunks preserved. -/
def splitChar (sep : Char) : List Char → List (List Char)
  | [] => [[]]
  | c :: t =>
    let r := splitChar sep t
    if c = sep then [] :: r
    else
      match r with
      | [] => [[c]]
      | h :: t2 => (c :: h) :: t2

/-- Python sample_dir.split(sep)[-1]: the last chunk of splitting. -/
def lastSplitPiece (s : String) : String :=
  String.mk ((splitChar '_' s.data).getLastD [])

/-- Python list indexing l[i] for int i: non-negative indices from the
front, negative indices from the back, none models IndexError. -/
def pyIndex (l : List String) (i : Int) : Option String :=
  if 0 ≤ i then l.get? i.toNat
  else if 0 ≤ (l.length : Int) + i then l.get? ((l.length : Int) + i).toNat
  else none

/-- The prompts table of get_demo_text_prompt. -/
def promptsTable : List (String × List String) :=
  [ ("small",
      [ "A small tiled bathroom with hard surfaces and minimal absorption"
      , "A compact bedroom with carpet flooring and soft furnishings" ])
  , ("medium",
      [ "A medium-sized classroom with concrete walls and large windows"
      , "A living room with wooden floors and moderate furnishing" ])
  , ("large",
      [ "A large cathedral with stone walls and high vaulted ceilings"
      , "A spacious concert hall with acoustic treatment panels" ])
  , ("outdoor",
      [ "An open field with no nearby reflective surfaces"
      , "A desert landscape with distant rock formations" ]) ]

/-- get_demo_text_prompt(category, sample_num) from the source. Returns
the generic phrase for an unknown category; otherwise the first phrase
when sample_num is at least the table length, else the phrase selected by
Python list indexing (none models an IndexError on a very negative
sample_num). -/
def get_demo_text_prompt (category : String) (sample_num : Int) : Option String :=
  match (promptsTable.find? (fun p => p.1 = category)).map Prod.snd with
  | none => some ("A " ++ category ++ " space")
  | some promptList =>
    if (promptList.length : Int) ≤ sample_num then promptList.get? 0
    else pyIndex promptList sample_num

/-- Lines 86-93 of the source: the text prompt of a group is the stripped
content of text_prompt.txt when present; otherwise the demo prompt at the
position parsed from the trailing underscore chunk of the directory name
(position 0 when the name has no underscore). none models the uncaught
ValueError or IndexError. -/
def resolvePrompt (catName : String) (g : SampleDir) : Option String :=
  match g.textPrompt with
  | some t => some (pyStrip t)
  | none =>
    if containsChar g.name '_' then
      match strToInt (lastSplitPiece g.name) with
      | none => none
      | some n => get_demo_text_prompt catName n
    else get_demo_text_prompt catName 0

/-- os.path.join on posix, as used throughout the source. -/
def pathJoin (a b : String) : String := a ++ "/" ++ b

/-- The sample_path of a group directory. -/
def samplePathOf (catName dirName : String) : String :=
  pathJoin (pathJoin SAMPLES_DIR catName) dirName

/-- The sample dict appended by the loader for one condition of a group;
wetFile is the reverb file name of the condition. -/
def mkSample (catName : String) (g : SampleDir) (cond tp wetFile : String) : Sample :=
  { id := catName ++ "_" ++ g.name ++ "_" ++ cond
  , category := catName
  , condition := cond
  , sample_dir := g.name
  , text_prompt := tp
  , anechoic_path := pathJoin (samplePathOf catName g.name) "anechoic.wav"
  , reverb_path := pathJoin (samplePathOf catName g.name) wetFile }

/-- The inner loop body of load_evaluation_samples for one group entry:
skip non-directories, resolve the text prompt (before any audio existence
check, as in the source), then emit the generated-condition sample when
anechoic.wav and generated_reverb.wav both exist, followed by the
ground-truth-condition sample when anechoic.wav and
ground_truth_reverb.wav both exist. -/
def loadGroup (catName : String) (g : SampleDir) : Option (List Sample) :=
  if g.isDir = false then some [] else
  match resolvePrompt catName g with
  | none => none
  | some tp =>
    some ((if g.anechoic && g.generated then
             [mkSample catName g "generated" tp "generated_reverb.wav"] else [])
       ++ (if g.anechoic && g.groundTruth then
             [mkSample catName g "ground_truth" tp "ground_truth_reverb.wav"] else []))

/-- The inner loop of load_evaluation_samples over the group entries of
one category, in listdir order. -/
def loadGroups (catName : String) : List SampleDir → Option (List Sample)
  | [] => some []
  | g :: gs =>
    match loadGroup catName g, loadGroups catName gs with
    | some l, some rest => some (l ++ rest)
    | _, _ => none

/-- The outer loop body: skip root entries that are not directories. -/
def loadCategory (cat : CategoryDir) : Option (List Sample) :=
  if cat.isDir = false then some [] else loadGroups cat.name cat.groups

/-- The outer loop of load_evaluation_samples. -/
def loadCategories : List CategoryDir → Option (List Sample)
  | [] => some []
  | c :: cs =>
    match loadCategory c, loadCategories cs with
    | some l, some rest => some (l ++ rest)
    | _, _ => none

/-- load_evaluation_samples: a missing root yields an empty catalog and a
surfaced st.error; an empty result yields a surfaced st.warning; none
models an uncaught exception during the scan. -/
def load_evaluation_samples (c : Corpus) : Option (List Sample × List Msg) :=
  if c.rootExists = false then
    some ([], [Msg.error ("Evaluation samples directory not found: " ++ SAMPLES_DIR)])
  else
    match loadCategories c.categories with
    | none => none
    | some samples =>
      some (samples,
        if samples.isEmpty then
          [Msg.warning "No evaluation samples found in the directory structure."]
        else [])

/-- Selection sampling without replacement, modelling
random.sample(range(n), n): at each step one remaining pool element is
picked (the pick stream rand abstracts the random source; any stream is a
possible run) and removed. The fuel argument is the pool size, making the
recursion structural. -/
def randomSampleAux (rand : Nat → Nat) : Nat → Nat → List Nat → List Nat
  | 0, _, _ => []
  | _ + 1, _, [] => []
  | fuel + 1, step, a :: t =>
    let pool := a :: t
    let i := rand step % pool.length
    pool.getD i 0 :: randomSampleAux rand fuel (step + 1) (pool.eraseIdx i)

/-- random.sample(pool, len(pool)): draw every pool element without
replacement, in a random order. -/
def randomSample (rand : Nat → Nat) (pool : List Nat) : List Nat :=
  randomSampleAux rand pool.length 0 pool

/-- The rating dict entry built by the Next and Previous button handlers.
The matchScore field embeds the dict key named match in the source (a
keyword in Lean). -/
structure Rating where
  sample_id : String
  category : String
  condition : String
  quality : Int
  matchScore : Int
  order_presented : Nat
deriving DecidableEq, Repr

/-- Python dict lookup d.get(k): the value at the key, if present. -/
def dictGet (d : List (String × Rating)) (k : String) : Option Rating :=
  (d.find? (fun p => p.1 = k)).map Prod.snd

/-- Python dict assignment d[k] = v: replace the entry in place when the
key is present, append it otherwise (insertion order preserved). -/
def dictInsert : List (String × Rating) → String → Rating → List (String × Rating)
  | [], k, v => [(k, v)]
  | p :: t, k, v => if p.1 = k then (k, v) :: t else p :: dictInsert t k v

/-- The st.session_state fields the controller owns. -/
structure SessionState where
  samples : List Sample
  sample_order : List Nat
  current_sample_idx : Nat
  ratings : List (String × Rating)
deriving DecidableEq, Repr

/-- samples[sample_order[current_sample_idx]], the displayed sample. -/
def currentSample (s : SessionState) : Option Sample :=
  (s.sample_order.get? s.current_sample_idx).bind (fun i => s.samples.get? i)

/-- The rating write both button handlers perform before moving: store
the slider values for the displayed sample under its id, with
order_presented set to the current cursor. -/
def recordRating (s : SessionState) (q m : Int) : SessionState :=
  match currentSample s with
  | none => s
  | some sp =>
    let r : Rating :=
      { sample_id := sp.id, category := sp.category, condition := sp.condition
      , quality := q, matchScore := m, order_presented := s.current_sample_idx }
    { s with ratings := dictInsert s.ratings sp.id r }

/-- The Next (or Submit) button handler: record the displayed ratings,
then increment current_sample_idx. -/
def advance (s : SessionState) (q m : Int) : SessionState :=
  let s1 := recordRating s q m
  { s1 with current_sample_idx := s1.current_sample_idx + 1 }

/-- The Previous button handler: record the displayed ratings, then
decrement current_sample_idx. The button is only rendered when
current_sample_idx is positive. -/
def retreat (s : SessionState) (q m : Int) : SessionState :=
  let s1 := recordRating s q m
  { s1 with current_sample_idx := s1.current_sample_idx - 1 }

/-- The quality slider value before the rater touches it:
ratings.get(id, empty).get(quality-key, 3). -/
def displayedQuality (s : SessionState) : Int :=
  ((currentSample s).bind (fun sp => dictGet s.ratings sp.id)).elim 3 Rating.quality

/-- The match slider value before the rater touches it. -/
def displayedMatch (s : SessionState) : Int :=
  ((currentSample s).bind (fun sp => dictGet s.ratings sp.id)).elim 3 Rating.matchScore

/-- Next followed immediately by Previous, with the rater not moving the
sliders in between, so Previous records the values the sliders were
initialized with on the newly displayed sample. -/
def advanceThenRetreatNoEdit (s : SessionState) (q m : Int) : SessionState :=
  let s1 := advance s q m
  retreat s1 (displayedQuality s1) (displayedMatch s1)

/-- The guard at the top of evaluation_interface: the completion screen
is shown exactly when current_sample_idx has passed the end of
sample_order. -/
def sessionIsComplete (s : SessionState) : Bool :=
  s.sample_order.length ≤ s.current_sample_idx

/-- The session state main() builds on first run: the loaded samples, a
random sample of range(len(samples)) of full length as the order, cursor
zero and an empty ratings dict. -/
def mkInitState (samples : List Sample) (rand : Nat → Nat) : SessionState :=
  { samples := samples
  , sample_order := randomSample rand (List.range samples.length)
  , current_sample_idx := 0
  , ratings := [] }

/-- One UI-driven transition of the session: either button can fire only
while the interface is rendered (cursor within the order), and Previous
only when the cursor is positive. The slider values q and m are arbitrary
integers here; the widgets themselves restrict them to 1..5. -/
inductive Step : SessionState → SessionState → Prop where
  | next (s : SessionState) (q m : Int)
      (h : s.current_sample_idx < s.sample_order.length) :
      Step s (advance s q m)
  | prev (s : SessionState) (q m : Int)
      (h : s.current_sample_idx < s.sample_order.length)
      (hpos : 0 < s.current_sample_idx) :
      Step s (retreat s q m)

/-- datetime.now() observed at completion time. -/
structure DateTime where
  year : Nat
  month : Nat
  day : Nat
  hour : Nat
  minute : Nat
  second : Nat
  microsecond : Nat
deriving DecidableEq, Repr

/-- Zero-padded decimal rendering of width w. -/
def padNum (w n : Nat) : String :=
  let s := toString n
  String.mk (List.replicate (w - s.length) '0') ++ s

/-- strftime with format %Y%m%d_%H%M%S, as used for the record name.
Second resolution: the microsecond field is not rendered. -/
def strftimeCompact (t : DateTime) : String :=
  padNum 4 t.year ++ padNum 2 t.month ++ padNum 2 t.day ++ "_"
    ++ padNum 2 t.hour ++ padNum 2 t.minute ++ padNum 2 t.second

/-- datetime.isoformat, rendered to full microsecond resolution. -/
def isoformat (t : DateTime) : String :=
  padNum 4 t.year ++ "-" ++ padNum 2 t.month ++ "-" ++ padNum 2 t.day ++ "T"
    ++ padNum 2 t.hour ++ ":" ++ padNum 2 t.minute ++ ":" ++ padNum 2 t.second
    ++ "." ++ padNum 6 t.microsecond

/-- The results object show_completion serializes: the ratings dict plus
the completion timestamp. -/
structure ResultsRecord where
  ratings : List (String × Rating)
  completion_time : String
deriving DecidableEq, Repr

/-- Filesystem effects of the persister, in program order. -/
inductive FsOp where
  | openWrite (path : String)
  | writeContent (path : String) (content : ResultsRecord)
  | close (path : String)
  | rename (src : String) (dst : String)
deriving DecidableEq, Repr

/-- The record file name show_completion builds from the completion
time. -/
def resultFilename (t : DateTime) : String :=
  RESULTS_DIR ++ "/evaluation_" ++ strftimeCompact t ++ ".json"

/-- show_completion: build the results object, then open the final file
name for writing, dump the record and close (the with-block). Returns the
file name, the record and the filesystem operations performed. -/
def show_completion (ratings : List (String × Rating)) (now : DateTime) :
    String × ResultsRecord × List FsOp :=
  let results : ResultsRecord := { ratings := ratings, completion_time := isoformat now }
  let filename := resultFilename now
  (filename, results,
    [FsOp.openWrite filename, FsOp.writeContent filename results, FsOp.close filename])

/-! Helper lemmas about the dict model. -/

theorem dictGet_insert_self (d : List (String × Rating)) (k : String) (v : Rating) :
    dictGet (dictInsert d k v) k = some v := by
  induction d with
  | nil => simp [dictInsert, dictGet, List.find?]
  | cons p t ih =>
    by_cases hp : p.1 = k
    · simp [dictInsert, hp, dictGet, List.find?]
    · simpa [dictInsert, hp, dictGet, List.find?] using ih

theorem dictGet_insert_ne (d : List (String × Rating)) (k k2 : String) (v : Rating)
    (hne : k2 ≠ k) : dictGet (dictInsert d k v) k2 = dictGet d k2 := by
  induction d with
  | nil => simp [dictInsert, dictGet, List.find?, Ne.symm hne]
  | cons p t ih =>
    by_cases hp : p.1 = k
    · have hins : dictInsert (p :: t) k v = (k, v) :: t := by simp [dictInsert, hp]
      have hpk2 : ¬ p.1 = k2 := by
        rw [hp]
        exact Ne.symm hne
      rw [hins]
      simp [dictGet, List.find?, Ne.symm hne, hpk2]
    · have hins : dictInsert (p :: t) k v = p :: dictInsert t k v := by
        simp [dictInsert, hp]
      rw [hins]
      by_cases hp2 : p.1 = k2
      · simp [dictGet, List.find?, hp2]
      · simpa [dictGet, List.find?, hp2] using ih

theorem dictInsert_keys_of_mem (d : List (String × Rating)) (k : String) (v : Rating)
    (h : k ∈ d.map Prod.fst) :
    (dictInsert d k v).map Prod.fst = d.map Prod.fst := by
  induction d with
  | nil => simp at h
  | cons p t ih =>
    by_cases hp : p.1 = k
    · simp [dictInsert, hp]
    · have hmem : k ∈ t.map Prod.fst := by
        rcases List.mem_map.mp h with ⟨a, ha, hfa⟩
        rcases List.mem_cons.mp ha with h1 | h2
        · exact absurd (h1 ▸ hfa) hp
        · exact List.mem_map.mpr ⟨a, h2, hfa⟩
      simp [dictInsert, hp, ih hmem]

theorem dictInsert_keys_of_not_mem (d : List (String × Rating)) (k : String) (v : Rating)
    (h : k ∉ d.map Prod.fst) :
    (dictInsert d k v).map Prod.fst = d.map Prod.fst ++ [k] := by
  induction d with
  | nil => simp [dictInsert]
  | cons p t ih =>
    have hp : ¬ p.1 = k := by
      intro hk
      exact h (List.mem_map.mpr ⟨p, List.mem_cons_self p t, hk⟩)
    have hmem : k ∉ t.map Prod.fst := by
      intro hk
      rcases List.mem_map.mp hk with ⟨a, ha, hfa⟩
      exact h (List.mem_map.mpr ⟨a, List.mem_cons_of_mem p ha, hfa⟩)
    simp [dictInsert, hp, ih hmem]

theorem dictInsert_length_of_mem (d : List (String × Rating)) (k : String) (v : Rating)
    (h : k ∈ d.map Prod.fst) :
    (dictInsert d k v).length = d.length := by
  have := dictInsert_keys_of_mem d k v h
  have h1 := congrArg List.length this
  simpa [List.length_map] using h1

/-! Helper lemmas about the sequencer. -/

theorem getD_cons_eraseIdx :
    ∀ (l : List Nat) (i : Nat), i < l.length → (l.getD i 0 :: l.eraseIdx i).Perm l
  | [], i, h => absurd h (by simp)
  | a :: t, 0, _ => by simp
  | a :: t, i + 1, h => by
    have ht : i < t.length := by simpa using h
    have hperm := getD_cons_eraseIdx t i ht
    have h1 : (a :: t).getD (i + 1) 0 = t.getD i 0 := by simp [List.getD]
    have h2 : (a :: t).eraseIdx (i + 1) = a :: t.eraseIdx i := rfl
    rw [h1, h2]
    exact (List.Perm.swap a (t.getD i 0) (t.eraseIdx i)).trans (List.Perm.cons a hperm)

theorem randomSampleAux_perm (rand : Nat → Nat) :
    ∀ (fuel step : Nat) (pool : List Nat), pool.length ≤ fuel →
      (randomSampleAux rand fuel step pool).Perm pool
  | 0, _, pool, h => by
    have hnil : pool = [] := List.length_eq_zero.mp (Nat.le_zero.mp h)
    subst hnil
    simp [randomSampleAux]
  | _ + 1, _, [], _ => by simp [randomSampleAux]
  | fuel + 1, step, a :: t, h => by
    have hlen : rand step % (a :: t).length < (a :: t).length :=
      Nat.mod_lt _ (by simp)
    have hle : ((a :: t).eraseIdx (rand step % (a :: t).length)).length ≤ fuel := by
      simp only [List.length_eraseIdx, if_pos hlen]
      simp only [List.length_cons] at h ⊢
      omega
    have hrec := randomSampleAux_perm rand fuel (step + 1) _ hle
    simp only [randomSampleAux]
    exact (List.Perm.cons _ hrec).trans (getD_cons_eraseIdx _ _ hlen)

theorem randomSample_perm (rand : Nat → Nat) (pool : List Nat) :
    (randomSample rand pool).Perm pool :=
  randomSampleAux_perm rand pool.length 0 pool (le_refl _)

/-! Helper lemmas about the state machine transitions. -/

theorem recordRating_samples (s : SessionState) (q m : Int) :
    (recordRating s q m).samples = s.samples := by
  unfold recordRating
  split <;> rfl

theorem recordRating_order (s : SessionState) (q m : Int) :
    (recordRating s q m).sample_order = s.sample_order := by
  unfold recordRating
  split <;> rfl

theorem recordRating_idx (s : SessionState) (q m : Int) :
    (recordRating s q m).current_sample_idx = s.current_sample_idx := by
  unfold recordRating
  split <;> rfl

theorem recordRating_ratings (s : SessionState) (sp : Sample) (q m : Int)
    (hcur : currentSample s = some sp) :
    (recordRating s q m).ratings = dictInsert s.ratings sp.id
      { sample_id := sp.id, category := sp.category, condition := sp.condition
      , quality := q, matchScore := m, order_presented := s.current_sample_idx } := by
  unfold recordRating
  rw [hcur]

theorem advance_idx (s : SessionState) (q m : Int) :
    (advance s q m).current_sample_idx = s.current_sample_idx + 1 := by
  unfold advance
  simp [recordRating_idx]

theorem retreat_idx (s : SessionState) (q m : Int) :
    (retreat s q m).current_sample_idx = s.current_sample_idx - 1 := by
  unfold retreat
  simp [recordRating_idx]

theorem advance_ratings (s : SessionState) (sp : Sample) (q m : Int)
    (hcur : currentSample s = some sp) :
    (advance s q m).ratings = dictInsert s.ratings sp.id
      { sample_id := sp.id, category := sp.category, condition := sp.condition
      , quality := q, matchScore := m, order_presented := s.current_sample_idx } := by
  have h1 : (advance s q m).ratings = (recordRating s q m).ratings := rfl
  rw [h1, recordRating_ratings s sp q m hcur]

theorem retreat_ratings (s : SessionState) (sp : Sample) (q m : Int)
    (hcur : currentSample s = some sp) :
    (retreat s q m).ratings = dictInsert s.ratings sp.id
      { sample_id := sp.id, category := sp.category, condition := sp.condition
      , quality := q, matchScore := m, order_presented := s.current_sample_idx } := by
  have h1 : (retreat s q m).ratings = (recordRating s q m).ratings := rfl
  rw [h1, recordRating_ratings s sp q m hcur]

/-! Concrete fixtures used by witnesses and counterexamples. -/

/-- A fixed pick stream standing for one possible run of the RNG. -/
def exRand : Nat → Nat := fun _ => 0

/-- A concrete catalog entry. -/
def exSampleA : Sample :=
  { id := "small_s_0_generated", category := "small", condition := "generated"
  , sample_dir := "s_0", text_prompt := "a small room"
  , anechoic_path := "evaluation_samples/small/s_0/anechoic.wav"
  , reverb_path := "evaluation_samples/small/s_0/generated_reverb.wav" }

/-- A second concrete catalog entry. -/
def exSampleB : Sample :=
  { id := "small_s_1_generated", category := "small", condition := "generated"
  , sample_dir := "s_1", text_prompt := "another small room"
  , anechoic_path := "evaluation_samples/small/s_1/anechoic.wav"
  , reverb_path := "evaluation_samples/small/s_1/generated_reverb.wav" }

/-- A fresh two-sample session at the first sample. -/
def exState0 : SessionState :=
  { samples := [exSampleA, exSampleB], sample_order := [0, 1]
  , current_sample_idx := 0, ratings := [] }

/-- The same session standing at the second sample. -/
def exState1 : SessionState :=
  { samples := [exSampleA, exSampleB], sample_order := [0, 1]
  , current_sample_idx := 1, ratings := [] }

/-! Claim theorems. -/

/-- C1: in any Active state, the Next handler writes (or overwrites) the
rating of the displayed sample under its id with order_presented equal to
the cursor and then increments the cursor; the Previous handler performs
the same write and decrements the cursor, and it is only reachable as a
transition when the cursor is positive: at cursor zero every possible
transition is an advance. -/
theorem C1_navigation_writes_rating (s : SessionState) (sp : Sample) (q m : Int)
    (hcur : currentSample s = some sp) :
    ((advance s q m).current_sample_idx = s.current_sample_idx + 1 ∧
      dictGet (advance s q m).ratings sp.id = some
        { sample_id := sp.id, category := sp.category, condition := sp.condition
        , quality := q, matchScore := m, order_presented := s.current_sample_idx }) ∧
    (0 < s.current_sample_idx →
      (retreat s q m).current_sample_idx = s.current_sample_idx - 1 ∧
      dictGet (retreat s q m).ratings sp.id = some
        { sample_id := sp.id, category := sp.category, condition := sp.condition
        , quality := q, matchScore := m, order_presented := s.current_sample_idx }) ∧
    (s.current_sample_idx = 0 → ∀ t, Step s t → ∃ q2 m2, t = advance s q2 m2) := by
  refine ⟨⟨advance_idx s q m, ?_⟩, fun _ => ⟨retreat_idx s q m, ?_⟩,
    fun h0 t hstep => ?_⟩
  · rw [advance_ratings s sp q m hcur, dictGet_insert_self]
  · rw [retreat_ratings s sp q m hcur, dictGet_insert_self]
  · cases hstep with
    | next q2 m2 h => exact ⟨q2, m2, rfl⟩
    | prev q2 m2 h hpos => rw [h0] at hpos; exact absurd hpos (lt_irrefl 0)

/-- C1 witness: the theorem instantiated at a concrete two-sample session,
once at cursor one (both handlers) and once at cursor zero (no Previous
transition exists there). -/
theorem C1_navigation_writes_rating_witness :
    currentSample exState1 = some exSampleB ∧ 0 < exState1.current_sample_idx ∧
    (retreat exState1 2 4).current_sample_idx = exState1.current_sample_idx - 1 ∧
    dictGet (retreat exState1 2 4).ratings exSampleB.id = some
      { sample_id := exSampleB.id, category := exSampleB.category
      , condition := exSampleB.condition, quality := 2, matchScore := 4
      , order_presented := exState1.current_sample_idx } ∧
    (∀ t, Step exState0 t → ∃ q2 m2, t = advance exState0 q2 m2) :=
  ⟨rfl, by decide,
   ((C1_navigation_writes_rating exState1 exSampleB 2 4 rfl).2.1 (by decide)).1,
   ((C1_navigation_writes_rating exState1 exSampleB 2 4 rfl).2.1 (by decide)).2,
   (C1_navigation_writes_rating exState0 exSampleA 2 4 rfl).2.2 rfl⟩

/-- C2: the order built at session start is a permutation of the catalog
index range, whatever the random picks were: it has exactly N elements
and each index below N occurs exactly once; with an empty catalog the
order is empty and the interface shows the completion screen at once. -/
theorem C2_order_is_permutation (samples : List Sample) (rand : Nat → Nat) :
    (mkInitState samples rand).sample_order.Perm (List.range samples.length) ∧
    (mkInitState samples rand).sample_order.length = samples.length ∧
    (∀ i : Nat, i < samples.length → (mkInitState samples rand).sample_order.count i = 1) ∧
    sessionIsComplete (mkInitState ([] : List Sample) rand) = true := by
  have hperm : (mkInitState samples rand).sample_order.Perm (List.range samples.length) :=
    randomSample_perm rand (List.range samples.length)
  refine ⟨hperm, by simpa using hperm.length_eq, fun i hi => ?_, ?_⟩
  · rw [hperm.count_eq]
    exact List.count_eq_one_of_mem (List.nodup_range samples.length) (List.mem_range.mpr hi)
  · rfl

/-- C2 witness: the count clause instantiated for a one-sample catalog at
index zero. -/
theorem C2_order_is_permutation_witness :
    0 < [exSampleA].length ∧ (mkInitState [exSampleA] exRand).sample_order.count 0 = 1 :=
  ⟨by decide, (C2_order_is_permutation [exSampleA] exRand).2.2.1 0 (by decide)⟩

/-- The ratings dict invariant: keys are pairwise distinct and every key
is the id of a catalog sample. -/
def RatingsInv (s : SessionState) : Prop :=
  (s.ratings.map Prod.fst).Nodup ∧
  ∀ k ∈ s.ratings.map Prod.fst, k ∈ s.samples.map Sample.id

theorem recordRating_none (s : SessionState) (q m : Int)
    (hcur : currentSample s = none) : recordRating s q m = s := by
  unfold recordRating
  rw [hcur]

theorem currentSample_mem (s : SessionState) (sp : Sample)
    (hcur : currentSample s = some sp) : sp ∈ s.samples := by
  unfold currentSample at hcur
  cases hidx : s.sample_order.get? s.current_sample_idx with
  | none => rw [hidx] at hcur; exact absurd hcur (by simp)
  | some i =>
    rw [hidx] at hcur
    exact List.get?_mem (by simpa using hcur)

theorem recordRating_inv (s : SessionState) (q m : Int) (h : RatingsInv s) :
    RatingsInv (recordRating s q m) := by
  cases hcur : currentSample s with
  | none => rw [recordRating_none s q m hcur]; exact h
  | some sp =>
    rcases h with ⟨hnd, hsub⟩
    have hratings := recordRating_ratings s sp q m hcur
    have hsamples := recordRating_samples s q m
    set newR : Rating :=
      { sample_id := sp.id, category := sp.category, condition := sp.condition
      , quality := q, matchScore := m, order_presented := s.current_sample_idx } with hnewR
    by_cases hmem : sp.id ∈ s.ratings.map Prod.fst
    · have hkeys := dictInsert_keys_of_mem s.ratings sp.id newR hmem
      constructor
      · rw [hratings, hkeys]; exact hnd
      · intro k hk
        rw [hratings, hkeys] at hk
        rw [hsamples]
        exact hsub k hk
    · have hkeys := dictInsert_keys_of_not_mem s.ratings sp.id newR hmem
      have hid : sp.id ∈ s.samples.map Sample.id :=
        List.mem_map.mpr ⟨sp, currentSample_mem s sp hcur, rfl⟩
      constructor
      · rw [hratings, hkeys]
        rw [List.nodup_append]
        exact ⟨hnd, List.nodup_singleton sp.id, by
          intro a ha hb
          have : a = sp.id := by simpa using hb
          rw [this] at ha
          exact hmem ha⟩
      · intro k hk
        rw [hratings, hkeys] at hk
        rw [hsamples]
        rcases List.mem_append.mp hk with h1 | h2
        · exact hsub k h1
        · have : k = sp.id := by simpa using h2
          rw [this]
          exact hid

theorem step_inv (s t : SessionState) (hstep : Step s t) (h : RatingsInv s) :
    RatingsInv t := by
  cases hstep with
  | next q m _ => exact recordRating_inv s q m h
  | prev q m _ _ => exact recordRating_inv s q m h

theorem reachable_inv (s0 s : SessionState)
    (hreach : Relation.ReflTransGen Step s0 s) (h : RatingsInv s0) : RatingsInv s := by
  induction hreach with
  | refl => exact h
  | tail _ hstep ih => exact step_inv _ _ hstep ih

theorem mkInitState_inv (samples : List Sample) (rand : Nat → Nat) :
    RatingsInv (mkInitState samples rand) := by
  constructor <;> simp [mkInitState]

/-- C3: in every session state reachable from session start, the ratings
dict has pairwise distinct keys, each a catalog sample id, so its size
never exceeds the catalog size; and re-recording the displayed sample
stores exactly the new scores under its id, without growing the dict when
the id was already rated (last-write-wins, never a duplicate). -/
theorem C3_ratings_unique_and_bounded (samples : List Sample) (rand : Nat → Nat)
    (s : SessionState)
    (hreach : Relation.ReflTransGen Step (mkInitState samples rand) s) :
    (s.ratings.map Prod.fst).Nodup ∧
    s.ratings.length ≤ s.samples.length ∧
    (∀ (sp : Sample) (q m : Int), currentSample s = some sp →
      dictGet (recordRating s q m).ratings sp.id = some
        { sample_id := sp.id, category := sp.category, condition := sp.condition
        , quality := q, matchScore := m, order_presented := s.current_sample_idx } ∧
      (sp.id ∈ s.ratings.map Prod.fst →
        (recordRating s q m).ratings.length = s.ratings.length)) := by
  have hinv := reachable_inv _ _ hreach (mkInitState_inv samples rand)
  rcases hinv with ⟨hnd, hsub⟩
  refine ⟨hnd, ?_, fun sp q m hcur => ⟨?_, fun hmem => ?_⟩⟩
  · have hsub2 : s.ratings.map Prod.fst ⊆ (s.samples.map Sample.id).dedup :=
      fun k hk => List.mem_dedup.mpr (hsub k hk)
    have h1 := (hnd.subperm hsub2).length_le
    have h2 := (List.dedup_sublist (s.samples.map Sample.id)).length_le
    have h3 := le_trans h1 h2
    simp only [List.length_map] at h3
    exact h3
  · rw [recordRating_ratings s sp q m hcur, dictGet_insert_self]
  · rw [recordRating_ratings s sp q m hcur]
    exact dictInsert_length_of_mem s.ratings sp.id _ hmem

/-- The fresh concrete session as main() builds it. -/
def exInit : SessionState := mkInitState [exSampleA, exSampleB] exRand

/-- The concrete session after pressing Next with scores 2 and 2. -/
def exW1 : SessionState := advance exInit 2 2

/-- The concrete session after then pressing Previous with scores 1 and 1,
so both samples are rated and the cursor is back at zero. -/
def exW2 : SessionState := retreat exW1 1 1

/-- C3 witness: the theorem instantiated at a concrete reachable state in
which the displayed sample is already rated. -/
theorem C3_ratings_unique_and_bounded_witness :
    currentSample exW2 = some exSampleA ∧
    exSampleA.id ∈ exW2.ratings.map Prod.fst ∧
    (exW2.ratings.map Prod.fst).Nodup ∧
    exW2.ratings.length ≤ exW2.samples.length ∧
    dictGet (recordRating exW2 5 5).ratings exSampleA.id = some
      { sample_id := exSampleA.id, category := exSampleA.category
      , condition := exSampleA.condition, quality := 5, matchScore := 5
      , order_presented := exW2.current_sample_idx } ∧
    (recordRating exW2 5 5).ratings.length = exW2.ratings.length := by
  have hreach : Relation.ReflTransGen Step exInit exW2 :=
    Relation.ReflTransGen.tail
      (Relation.ReflTransGen.tail Relation.ReflTransGen.refl
        (Step.next exInit 2 2 (by decide)))
      (Step.prev exW1 1 1 (by decide) (by decide))
  have h := C3_ratings_unique_and_bounded [exSampleA, exSampleB] exRand exW2 hreach
  have hcur : currentSample exW2 = some exSampleA := by decide
  have hmem : exSampleA.id ∈ exW2.ratings.map Prod.fst := by decide
  exact ⟨hcur, hmem, h.1, h.2.1, (h.2.2 exSampleA 5 5 hcur).1,
    (h.2.2 exSampleA 5 5 hcur).2 hmem⟩

/-- The fields of a rating other than order_presented. -/
def ratingContent (r : Rating) : String × String × String × Int × Int :=
  (r.sample_id, r.category, r.condition, r.quality, r.matchScore)

/-- Two ratings dicts agree in content when every key maps to the same
rating up to the order_presented field. -/
def sameRatingsContent (r1 r2 : List (String × Rating)) : Prop :=
  ∀ k : String, (dictGet r1 k).map ratingContent = (dictGet r2 k).map ratingContent

/-- C4 counterexample: in a fresh two-sample session, Next with scores 4
and 5 followed immediately by Previous with the sliders untouched does
restore the cursor, but the ratings dict is changed in content: the
briefly displayed second sample gains a brand-new default rating with
scores 3 and 3, an entry absent both before the pair and after the
advance alone. -/
theorem C4_counterexample :
    (advanceThenRetreatNoEdit exState0 4 5).current_sample_idx = exState0.current_sample_idx ∧
    ¬ sameRatingsContent (advanceThenRetreatNoEdit exState0 4 5).ratings
        (advance exState0 4 5).ratings ∧
    ¬ sameRatingsContent (advanceThenRetreatNoEdit exState0 4 5).ratings
        exState0.ratings := by
  refine ⟨by decide, fun hsame => ?_, fun hsame => ?_⟩
  · have h := hsame "small_s_1_generated"
    revert h
    decide
  · have h := hsame "small_s_1_generated"
    revert h
    decide

/-- C4 amended: Next then an immediate untouched Previous restores the
cursor; every key other than the id of the newly displayed sample is
unchanged relative to the state after the advance; that sample is
re-recorded with its stored scores at the new presentation index when it
was already rated, and receives a fresh default rating with scores 3 and
3 when it was not. -/
theorem C4_advance_retreat_roundtrip (s : SessionState) (q m : Int) (sp1 : Sample)
    (hcur : currentSample (advance s q m) = some sp1) :
    (advanceThenRetreatNoEdit s q m).current_sample_idx = s.current_sample_idx ∧
    (∀ k, k ≠ sp1.id →
      dictGet (advanceThenRetreatNoEdit s q m).ratings k =
        dictGet (advance s q m).ratings k) ∧
    (∀ r, dictGet (advance s q m).ratings sp1.id = some r →
      dictGet (advanceThenRetreatNoEdit s q m).ratings sp1.id = some
        { sample_id := sp1.id, category := sp1.category, condition := sp1.condition
        , quality := r.quality, matchScore := r.matchScore
        , order_presented := s.current_sample_idx + 1 }) ∧
    (dictGet (advance s q m).ratings sp1.id = none →
      dictGet (advanceThenRetreatNoEdit s q m).ratings sp1.id = some
        { sample_id := sp1.id, category := sp1.category, condition := sp1.condition
        , quality := 3, matchScore := 3
        , order_presented := s.current_sample_idx + 1 }) := by
  have hdef : advanceThenRetreatNoEdit s q m =
      retreat (advance s q m) (displayedQuality (advance s q m))
        (displayedMatch (advance s q m)) := rfl
  have hrr := retreat_ratings (advance s q m) sp1 (displayedQuality (advance s q m))
    (displayedMatch (advance s q m)) hcur
  refine ⟨?_, fun k hk => ?_, fun r hr => ?_, fun hnone => ?_⟩
  · rw [hdef, retreat_idx, advance_idx]
    omega
  · rw [hdef, hrr, dictGet_insert_ne _ _ _ _ hk]
  · have hdq : displayedQuality (advance s q m) = r.quality := by
      unfold displayedQuality
      rw [hcur]
      simp [hr]
    have hdm : displayedMatch (advance s q m) = r.matchScore := by
      unfold displayedMatch
      rw [hcur]
      simp [hr]
    rw [hdef, hrr, dictGet_insert_self, hdq, hdm, advance_idx]
  · have hdq : displayedQuality (advance s q m) = 3 := by
      unfold displayedQuality
      rw [hcur]
      simp [hnone]
    have hdm : displayedMatch (advance s q m) = 3 := by
      unfold displayedMatch
      rw [hcur]
      simp [hnone]
    rw [hdef, hrr, dictGet_insert_self, hdq, hdm, advance_idx]

/-- A rating already stored for the second sample, used to exercise the
re-recording branch. -/
def exRatingB : Rating :=
  { sample_id := "small_s_1_generated", category := "small", condition := "generated"
  , quality := 2, matchScore := 2, order_presented := 1 }

/-- The two-sample session at the first sample, with the second sample
already rated. -/
def exStateRatedB : SessionState :=
  { samples := [exSampleA, exSampleB], sample_order := [0, 1]
  , current_sample_idx := 0, ratings := [(exSampleB.id, exRatingB)] }

/-- C4 amended witness: the round-trip theorem instantiated both where
the next sample is unrated (a default 3 and 3 rating appears) and where
it is already rated (its scores are re-recorded at the new index). -/
theorem C4_advance_retreat_roundtrip_witness :
    currentSample (advance exState0 4 5) = some exSampleB ∧
    (advanceThenRetreatNoEdit exState0 4 5).current_sample_idx = exState0.current_sample_idx ∧
    exSampleA.id ≠ exSampleB.id ∧
    dictGet (advanceThenRetreatNoEdit exState0 4 5).ratings exSampleA.id =
      dictGet (advance exState0 4 5).ratings exSampleA.id ∧
    dictGet (advance exState0 4 5).ratings exSampleB.id = none ∧
    dictGet (advanceThenRetreatNoEdit exState0 4 5).ratings exSampleB.id = some
      { sample_id := exSampleB.id, category := exSampleB.category
      , condition := exSampleB.condition, quality := 3, matchScore := 3
      , order_presented := exState0.current_sample_idx + 1 } ∧
    dictGet (advance exStateRatedB 4 5).ratings exSampleB.id = some exRatingB ∧
    dictGet (advanceThenRetreatNoEdit exStateRatedB 4 5).ratings exSampleB.id = some
      { sample_id := exSampleB.id, category := exSampleB.category
      , condition := exSampleB.condition, quality := exRatingB.quality
      , matchScore := exRatingB.matchScore
      , order_presented := exStateRatedB.current_sample_idx + 1 } := by
  have h1 := C4_advance_retreat_roundtrip exState0 4 5 exSampleB (by decide)
  have h2 := C4_advance_retreat_roundtrip exStateRatedB 4 5 exSampleB (by decide)
  exact ⟨by decide, h1.1, by decide, h1.2.1 exSampleA.id (by decide), by decide,
    h1.2.2.2 (by decide), by decide, h2.2.2.1 exRatingB (by decide)⟩

/-- C7 counterexample: a rating input with quality 6 (outside 1..5) is
not rejected by the Next handler: the transition occurs, the cursor
moves, the ratings dict changes and the out-of-range score is recorded
verbatim; no validation failure exists in the handler. -/
theorem C7_counterexample :
    ¬ ((6 : Int) ≤ 5) ∧
    exState0.current_sample_idx < exState0.sample_order.length ∧
    (advance exState0 6 3).current_sample_idx ≠ exState0.current_sample_idx ∧
    (advance exState0 6 3).ratings ≠ exState0.ratings ∧
    dictGet (advance exState0 6 3).ratings exSampleA.id = some
      { sample_id := exSampleA.id, category := exSampleA.category
      , condition := exSampleA.condition, quality := 6, matchScore := 3
      , order_presented := 0 } := by
  decide

/-- C7 amended: the slider widgets constrain the scores to 1..5 upstream;
the Next and Previous handlers themselves perform no validation and never
reject or clamp: whatever integers reach them are recorded unchanged and
the cursor moves. -/
theorem C7_no_validation_at_boundary (s : SessionState) (sp : Sample) (q m : Int)
    (hcur : currentSample s = some sp) :
    (advance s q m).current_sample_idx = s.current_sample_idx + 1 ∧
    (∃ r, dictGet (advance s q m).ratings sp.id = some r ∧
      r.quality = q ∧ r.matchScore = m) ∧
    (retreat s q m).current_sample_idx = s.current_sample_idx - 1 ∧
    (∃ r, dictGet (retreat s q m).ratings sp.id = some r ∧
      r.quality = q ∧ r.matchScore = m) := by
  refine ⟨advance_idx s q m,
    ⟨{ sample_id := sp.id, category := sp.category, condition := sp.condition
     , quality := q, matchScore := m, order_presented := s.current_sample_idx },
     ?_, rfl, rfl⟩,
    retreat_idx s q m,
    ⟨{ sample_id := sp.id, category := sp.category, condition := sp.condition
     , quality := q, matchScore := m, order_presented := s.current_sample_idx },
     ?_, rfl, rfl⟩⟩
  · rw [advance_ratings s sp q m hcur, dictGet_insert_self]
  · rw [retreat_ratings s sp q m hcur, dictGet_insert_self]

/-- C7 amended witness: the no-validation theorem instantiated with the
out-of-range input quality 6, match 0. -/
theorem C7_no_validation_at_boundary_witness :
    currentSample exState0 = some exSampleA ∧
    (advance exState0 6 0).current_sample_idx = exState0.current_sample_idx + 1 ∧
    (∃ r, dictGet (advance exState0 6 0).ratings exSampleA.id = some r ∧
      r.quality = 6 ∧ r.matchScore = 0) :=
  ⟨rfl, (C7_no_validation_at_boundary exState0 exSampleA 6 0 rfl).1,
   (C7_no_validation_at_boundary exState0 exSampleA 6 0 rfl).2.1⟩

/-- A corpus whose root directory does not exist. -/
def exNoRoot : Corpus := { rootExists := false, categories := [] }

/-- C8 counterexample: with the corpus root missing the loader surfaces
an st.error message, not a warning: no warning-severity message at all is
emitted in that case. -/
theorem C8_counterexample :
    load_evaluation_samples exNoRoot =
      some ([], [Msg.error ("Evaluation samples directory not found: " ++ SAMPLES_DIR)]) ∧
    (∀ w : String,
      Msg.warning w ∉
        [Msg.error ("Evaluation samples directory not found: " ++ SAMPLES_DIR)]) := by
  refine ⟨rfl, fun w hw => ?_⟩
  simp at hw

/-- C8 amended: whenever the loader returns an empty catalog, a single
non-fatal message is surfaced (error-styled for a missing root, a warning
for a present root with no valid groups), session start succeeds, the
session is immediately complete with an empty ratings dict, and the
persisted record carries an empty ratings mapping. -/
theorem C8_empty_catalog_graceful (c : Corpus) (msgs : List Msg) (rand : Nat → Nat)
    (t : DateTime) (h : load_evaluation_samples c = some ([], msgs)) :
    (c.rootExists = false →
      msgs = [Msg.error ("Evaluation samples directory not found: " ++ SAMPLES_DIR)]) ∧
    (c.rootExists = true →
      msgs = [Msg.warning "No evaluation samples found in the directory structure."]) ∧
    msgs ≠ [] ∧
    sessionIsComplete (mkInitState [] rand) = true ∧
    (mkInitState [] rand).ratings = [] ∧
    (show_completion (mkInitState [] rand).ratings t).2.1 =
      { ratings := [], completion_time := isoformat t } := by
  have hm : (c.rootExists = false ∧
        msgs = [Msg.error ("Evaluation samples directory not found: " ++ SAMPLES_DIR)]) ∨
      (c.rootExists = true ∧
        msgs = [Msg.warning "No evaluation samples found in the directory structure."]) := by
    unfold load_evaluation_samples at h
    by_cases hroot : c.rootExists = false
    · rw [if_pos hroot] at h
      exact Or.inl ⟨hroot, (congrArg Prod.snd (Option.some.inj h)).symm⟩
    · rw [if_neg hroot] at h
      have hroot2 : c.rootExists = true := by
        cases hc : c.rootExists
        · exact absurd hc hroot
        · rfl
      refine Or.inr ⟨hroot2, ?_⟩
      cases hcats : loadCategories c.categories with
      | none => rw [hcats] at h; exact absurd h (by simp)
      | some samples =>
        rw [hcats] at h
        have hpair := Option.some.inj h
        have hsamp : samples = [] := congrArg Prod.fst hpair
        have hms := (congrArg Prod.snd hpair).symm
        rw [hsamp] at hms
        simpa using hms
  refine ⟨fun hf => ?_, fun ht => ?_, ?_, rfl, rfl, rfl⟩
  · rcases hm with ⟨_, h2⟩ | ⟨h1, _⟩
    · exact h2
    · rw [hf] at h1; exact absurd h1 (by simp)
  · rcases hm with ⟨h1, _⟩ | ⟨_, h2⟩
    · rw [ht] at h1; exact absurd h1 (by simp)
    · exact h2
  · rcases hm with ⟨_, h2⟩ | ⟨_, h2⟩ <;> rw [h2] <;> simp

/-- A corpus whose root exists but contains no entries. -/
def exEmptyRoot : Corpus := { rootExists := true, categories := [] }

/-- A completion instant. -/
def exT1 : DateTime :=
  { year := 2026, month := 1, day := 2, hour := 3, minute := 4, second := 5
  , microsecond := 0 }

/-- A different completion instant within the same wall-clock second. -/
def exT2 : DateTime :=
  { year := 2026, month := 1, day := 2, hour := 3, minute := 4, second := 5
  , microsecond := 999999 }

/-- C8 amended witness: the theorem instantiated at both a missing-root
corpus and a present-but-empty corpus, at a fixed completion time. -/
theorem C8_empty_catalog_graceful_witness :
    load_evaluation_samples exNoRoot =
      some ([], [Msg.error ("Evaluation samples directory not found: " ++ SAMPLES_DIR)]) ∧
    [Msg.error ("Evaluation samples directory not found: " ++ SAMPLES_DIR)] ≠ ([] : List Msg) ∧
    load_evaluation_samples exEmptyRoot =
      some ([], [Msg.warning "No evaluation samples found in the directory structure."]) ∧
    [Msg.warning "No evaluation samples found in the directory structure."] ≠ ([] : List Msg) ∧
    sessionIsComplete (mkInitState [] exRand) = true ∧
    (show_completion (mkInitState [] exRand).ratings exT1).2.1 =
      { ratings := [], completion_time := isoformat exT1 } := by
  have h1 := C8_empty_catalog_graceful exNoRoot
    [Msg.error ("Evaluation samples directory not found: " ++ SAMPLES_DIR)] exRand exT1 rfl
  have h2 := C8_empty_catalog_graceful exEmptyRoot
    [Msg.warning "No evaluation samples found in the directory structure."] exRand exT1 rfl
  exact ⟨rfl, h1.2.2.1, rfl, h2.2.2.1, h1.2.2.2.1, h1.2.2.2.2.2⟩

/-- C9 counterexample: the persister performs no temp-and-rename commit
at all; its very first filesystem operation opens the final record name
directly, and two distinct completion instants within the same wall-clock
second produce the identical record name, so a prior record can be
overwritten. -/
theorem C9_counterexample :
    (∀ src dst : String, FsOp.rename src dst ∉ (show_completion [] exT1).2.2) ∧
    (show_completion [] exT1).2.2.head? = some (FsOp.openWrite (resultFilename exT1)) ∧
    exT1 ≠ exT2 ∧
    resultFilename exT1 = resultFilename exT2 := by
  refine ⟨fun src dst hmem => ?_, rfl, by decide, by decide⟩
  simp [show_completion] at hmem

/-- The path a filesystem operation acts on (its destination, for a
rename). -/
def opPath : FsOp → String
  | FsOp.openWrite p => p
  | FsOp.writeContent p _ => p
  | FsOp.close p => p
  | FsOp.rename _ dst => dst

/-- C9 amended: the persister opens, writes and closes the final record
name directly, in one whole-record write with no rename or temporary
name, and the record name depends only on the completion time truncated
to seconds, so completions within the same second share a name. -/
theorem C9_direct_write_second_resolution (ratings : List (String × Rating))
    (t t2 : DateTime) :
    (∀ op ∈ (show_completion ratings t).2.2, opPath op = resultFilename t) ∧
    (∀ src dst : String, FsOp.rename src dst ∉ (show_completion ratings t).2.2) ∧
    FsOp.writeContent (resultFilename t)
      { ratings := ratings, completion_time := isoformat t } ∈
        (show_completion ratings t).2.2 ∧
    (show_completion ratings t).1 = resultFilename t ∧
    (t.year = t2.year → t.month = t2.month → t.day = t2.day → t.hour = t2.hour →
      t.minute = t2.minute → t.second = t2.second →
      resultFilename t = resultFilename t2) := by
  refine ⟨fun op hop => ?_, fun src dst hmem => ?_, ?_, rfl, fun h1 h2 h3 h4 h5 h6 => ?_⟩
  · rcases (by simpa [show_completion] using hop :
        op = FsOp.openWrite (resultFilename t) ∨
        op = FsOp.writeContent (resultFilename t)
          { ratings := ratings, completion_time := isoformat t } ∨
        op = FsOp.close (resultFilename t)) with h | h | h <;> rw [h] <;> rfl
  · simp [show_completion] at hmem
  · simp [show_completion]
  · unfold resultFilename strftimeCompact
    rw [h1, h2, h3, h4, h5, h6]

/-- C9 amended witness: the theorem instantiated at two concrete
completion instants differing only in the microsecond field. -/
theorem C9_direct_write_second_resolution_witness :
    opPath (FsOp.close (resultFilename exT1)) = resultFilename exT1 ∧
    FsOp.rename "tmp" "final" ∉ (show_completion [] exT1).2.2 ∧
    resultFilename exT1 = resultFilename exT2 :=
  ⟨(C9_direct_write_second_resolution [] exT1 exT2).1
      (FsOp.close (resultFilename exT1)) (by simp [show_completion]),
   (C9_direct_write_second_resolution [] exT1 exT2).2.1 "tmp" "final",
   (C9_direct_write_second_resolution [] exT1 exT2).2.2.2.2 rfl rfl rfl rfl rfl rfl⟩

/-! Loader inversion and membership lemmas. -/

theorem loadGroups_inversion (catName : String) (g : SampleDir) (gs : List SampleDir)
    (L : List Sample) (h : loadGroups catName (g :: gs) = some L) :
    ∃ l rest, loadGroup catName g = some l ∧ loadGroups catName gs = some rest ∧
      L = l ++ rest := by
  unfold loadGroups at h
  cases h1 : loadGroup catName g with
  | none => rw [h1] at h; exact absurd h (by simp)
  | some l =>
    cases h2 : loadGroups catName gs with
    | none => rw [h1, h2] at h; exact absurd h (by simp)
    | some rest =>
      rw [h1, h2] at h
      exact ⟨l, rest, rfl, rfl, (Option.some.inj h).symm⟩

theorem loadCategories_inversion (c0 : CategoryDir) (cs : List CategoryDir)
    (L : List Sample) (h : loadCategories (c0 :: cs) = some L) :
    ∃ l rest, loadCategory c0 = some l ∧ loadCategories cs = some rest ∧
      L = l ++ rest := by
  unfold loadCategories at h
  cases h1 : loadCategory c0 with
  | none => rw [h1] at h; exact absurd h (by simp)
  | some l =>
    cases h2 : loadCategories cs with
    | none => rw [h1, h2] at h; exact absurd h (by simp)
    | some rest =>
      rw [h1, h2] at h
      exact ⟨l, rest, rfl, rfl, (Option.some.inj h).symm⟩

theorem isDir_eq_true_of_ne_false {b : Bool} (h : ¬ b = false) : b = true := by
  cases hb : b
  · exact absurd hb h
  · rfl

theorem loadGroups_mem (catName : String) :
    ∀ (gs : List SampleDir) (L : List Sample) (sp : Sample),
      loadGroups catName gs = some L → sp ∈ L →
      ∃ g ∈ gs, ∃ l, loadGroup catName g = some l ∧ sp ∈ l
  | [], L, sp, h, hm => by
    have hL : L = [] := (Option.some.inj h).symm
    rw [hL] at hm
    exact absurd hm (by simp)
  | g :: gs, L, sp, h, hm => by
    rcases loadGroups_inversion catName g gs L h with ⟨l, rest, h1, h2, hL⟩
    rw [hL] at hm
    rcases List.mem_append.mp hm with hm1 | hm2
    · exact ⟨g, List.mem_cons_self g gs, l, h1, hm1⟩
    · rcases loadGroups_mem catName gs rest sp h2 hm2 with ⟨g2, hg2, l2, hl2, hsp2⟩
      exact ⟨g2, List.mem_cons_of_mem g hg2, l2, hl2, hsp2⟩

theorem loadCategories_mem :
    ∀ (cats : List CategoryDir) (L : List Sample) (sp : Sample),
      loadCategories cats = some L → sp ∈ L →
      ∃ cat ∈ cats, cat.isDir = true ∧
        ∃ g ∈ cat.groups, ∃ l, loadGroup cat.name g = some l ∧ sp ∈ l
  | [], L, sp, h, hm => by
    have hL : L = [] := (Option.some.inj h).symm
    rw [hL] at hm
    exact absurd hm (by simp)
  | c0 :: cs, L, sp, h, hm => by
    rcases loadCategories_inversion c0 cs L h with ⟨l, rest, h1, h2, hL⟩
    rw [hL] at hm
    rcases List.mem_append.mp hm with hm1 | hm2
    · unfold loadCategory at h1
      by_cases hdir : c0.isDir = false
      · rw [if_pos hdir] at h1
        have hl : l = [] := (Option.some.inj h1).symm
        rw [hl] at hm1
        exact absurd hm1 (by simp)
      · rw [if_neg hdir] at h1
        rcases loadGroups_mem c0.name c0.groups l sp h1 hm1 with ⟨g, hg, lg, hlg, hspg⟩
        exact ⟨c0, List.mem_cons_self c0 cs, isDir_eq_true_of_ne_false hdir, g, hg, lg, hlg, hspg⟩
    · rcases loadCategories_mem cs rest sp h2 hm2 with ⟨cat, hcat, hcdir, g, hg, lg, hlg, hspg⟩
      exact ⟨cat, List.mem_cons_of_mem c0 hcat, hcdir, g, hg, lg, hlg, hspg⟩

theorem load_mem (c : Corpus) (samples : List Sample) (msgs : List Msg) (sp : Sample)
    (h : load_evaluation_samples c = some (samples, msgs)) (hm : sp ∈ samples) :
    ∃ cat ∈ c.categories, cat.isDir = true ∧
      ∃ g ∈ cat.groups, ∃ l, loadGroup cat.name g = some l ∧ sp ∈ l := by
  unfold load_evaluation_samples at h
  by_cases hroot : c.rootExists = false
  · rw [if_pos hroot] at h
    have hs : ([] : List Sample) = samples := congrArg Prod.fst (Option.some.inj h)
    rw [← hs] at hm
    exact absurd hm (by simp)
  · rw [if_neg hroot] at h
    cases hcats : loadCategories c.categories with
    | none => rw [hcats] at h; exact absurd h (by simp)
    | some L =>
      rw [hcats] at h
      have hL : L = samples := congrArg Prod.fst (Option.some.inj h)
      rw [hL] at hcats
      exact loadCategories_mem c.categories samples sp hcats hm

theorem loadGroup_mem (catName : String) (g : SampleDir) (l : List Sample) (sp : Sample)
    (h : loadGroup catName g = some l) (hm : sp ∈ l) :
    g.isDir = true ∧ g.anechoic = true ∧
    sp.category = catName ∧ sp.sample_dir = g.name ∧
    sp.anechoic_path = pathJoin (samplePathOf catName g.name) "anechoic.wav" ∧
    sp.id = catName ++ "_" ++ g.name ++ "_" ++ sp.condition ∧
    ((sp.condition = "generated" ∧ g.generated = true ∧
        sp.reverb_path = pathJoin (samplePathOf catName g.name) "generated_reverb.wav") ∨
     (sp.condition = "ground_truth" ∧ g.groundTruth = true ∧
        sp.reverb_path = pathJoin (samplePathOf catName g.name) "ground_truth_reverb.wav")) := by
  unfold loadGroup at h
  by_cases hdir : g.isDir = false
  · rw [if_pos hdir] at h
    have hl : l = [] := (Option.some.inj h).symm
    rw [hl] at hm
    exact absurd hm (by simp)
  · rw [if_neg hdir] at h
    have hdir2 := isDir_eq_true_of_ne_false hdir
    cases hre : resolvePrompt catName g with
    | none => rw [hre] at h; exact absurd h (by simp)
    | some tp =>
      rw [hre] at h
      have hl := (Option.some.inj h).symm
      rw [hl] at hm
      rcases List.mem_append.mp hm with hmem | hmem
      · cases hgen : (g.anechoic && g.generated) with
        | false => rw [hgen] at hmem; exact absurd hmem (by simp)
        | true =>
          rw [hgen] at hmem
          have hsp : sp = mkSample catName g "generated" tp "generated_reverb.wav" := by
            simpa using hmem
          have hand : g.anechoic = true ∧ g.generated = true := by simpa using hgen
          refine ⟨hdir2, hand.1, by rw [hsp]; rfl, by rw [hsp]; rfl, by rw [hsp]; rfl,
            by rw [hsp]; rfl, Or.inl ⟨by rw [hsp]; rfl, hand.2, by rw [hsp]; rfl⟩⟩
      · cases hgt : (g.anechoic && g.groundTruth) with
        | false => rw [hgt] at hmem; exact absurd hmem (by simp)
        | true =>
          rw [hgt] at hmem
          have hsp : sp = mkSample catName g "ground_truth" tp "ground_truth_reverb.wav" := by
            simpa using hmem
          have hand : g.anechoic = true ∧ g.groundTruth = true := by simpa using hgt
          refine ⟨hdir2, hand.1, by rw [hsp]; rfl, by rw [hsp]; rfl, by rw [hsp]; rfl,
            by rw [hsp]; rfl, Or.inr ⟨by rw [hsp]; rfl, hand.2, by rw [hsp]; rfl⟩⟩

theorem loadGroup_char (catName : String) (g : SampleDir) (l : List Sample)
    (h : loadGroup catName g = some l) (hdir : g.isDir = true) :
    l.length ≤ 2 ∧
    ((g.anechoic = true ∧ g.generated = true) ↔ ∃ sp ∈ l, sp.condition = "generated") ∧
    ((g.anechoic = true ∧ g.groundTruth = true) ↔ ∃ sp ∈ l, sp.condition = "ground_truth") := by
  unfold loadGroup at h
  rw [if_neg (by simp [hdir])] at h
  cases hre : resolvePrompt catName g with
  | none => rw [hre] at h; exact absurd h (by simp)
  | some tp =>
    rw [hre] at h
    have hl := (Option.some.inj h).symm
    subst hl
    cases han : g.anechoic <;> cases hgen : g.generated <;> cases hgt : g.groundTruth <;>
      simp [han, hgen, hgt, mkSample]

/-- C5: every sample the loader emits comes from a group directory whose
dry asset exists together with the matching variant asset, with the
sample paths pointing at exactly those assets; and per group the emitted
list has at most two samples, containing a generated sample iff the dry
and generated assets both exist, and a ground-truth sample iff the dry
and ground-truth assets both exist. -/
theorem C5_samples_require_assets (c : Corpus) (samples : List Sample) (msgs : List Msg)
    (h : load_evaluation_samples c = some (samples, msgs)) :
    (∀ sp ∈ samples, ∃ cat ∈ c.categories, cat.isDir = true ∧
      ∃ g ∈ cat.groups, g.isDir = true ∧ g.anechoic = true ∧
        sp.anechoic_path = pathJoin (samplePathOf cat.name g.name) "anechoic.wav" ∧
        ((sp.condition = "generated" ∧ g.generated = true ∧
            sp.reverb_path = pathJoin (samplePathOf cat.name g.name) "generated_reverb.wav") ∨
         (sp.condition = "ground_truth" ∧ g.groundTruth = true ∧
            sp.reverb_path =
              pathJoin (samplePathOf cat.name g.name) "ground_truth_reverb.wav"))) ∧
    (∀ (catName : String) (g : SampleDir) (l : List Sample),
      loadGroup catName g = some l → g.isDir = true →
      l.length ≤ 2 ∧
      ((g.anechoic = true ∧ g.generated = true) ↔ ∃ sp ∈ l, sp.condition = "generated") ∧
      ((g.anechoic = true ∧ g.groundTruth = true) ↔
        ∃ sp ∈ l, sp.condition = "ground_truth")) := by
  refine ⟨fun sp hsp => ?_, fun catName g l hg hdir => loadGroup_char catName g l hg hdir⟩
  rcases load_mem c samples msgs sp h hsp with ⟨cat, hcat, hcdir, g, hgmem, l, hgl, hspl⟩
  rcases loadGroup_mem cat.name g l sp hgl hspl with
    ⟨hgdir, han, _, _, hpath, _, hcond⟩
  exact ⟨cat, hcat, hcdir, g, hgmem, hgdir, han, hpath, hcond⟩

/-- A group directory holding every asset. -/
def exGroupFull : SampleDir :=
  { name := "s_0", isDir := true, anechoic := true, generated := true
  , groundTruth := true, textPrompt := some "a room" }

/-- A corpus with one category holding the full group. -/
def exCorpusFull : Corpus :=
  { rootExists := true
  , categories := [{ name := "small", isDir := true, groups := [exGroupFull] }] }

/-- The generated-condition sample the loader emits for the full group. -/
def exGenSample : Sample :=
  { id := "small_s_0_generated", category := "small", condition := "generated"
  , sample_dir := "s_0", text_prompt := "a room"
  , anechoic_path := "evaluation_samples/small/s_0/anechoic.wav"
  , reverb_path := "evaluation_samples/small/s_0/generated_reverb.wav" }

/-- The ground-truth-condition sample the loader emits for the full
group. -/
def exGtSample : Sample :=
  { id := "small_s_0_ground_truth", category := "small", condition := "ground_truth"
  , sample_dir := "s_0", text_prompt := "a room"
  , anechoic_path := "evaluation_samples/small/s_0/anechoic.wav"
  , reverb_path := "evaluation_samples/small/s_0/ground_truth_reverb.wav" }

/-- The two samples the loader emits for the full group. -/
def exSamplesFull : List Sample := [exGenSample, exGtSample]

/-- C5 witness: the theorem applied to the one-group corpus, with the
membership clause exercised at the generated sample. -/
theorem C5_samples_require_assets_witness :
    load_evaluation_samples exCorpusFull = some (exSamplesFull, []) ∧
    (∃ cat ∈ exCorpusFull.categories, cat.isDir = true ∧
      ∃ g ∈ cat.groups, g.isDir = true ∧ g.anechoic = true ∧
        (exSamplesFull.get ⟨0, by decide⟩).anechoic_path =
          pathJoin (samplePathOf cat.name g.name) "anechoic.wav" ∧
        (((exSamplesFull.get ⟨0, by decide⟩).condition = "generated" ∧ g.generated = true ∧
            (exSamplesFull.get ⟨0, by decide⟩).reverb_path =
              pathJoin (samplePathOf cat.name g.name) "generated_reverb.wav") ∨
         ((exSamplesFull.get ⟨0, by decide⟩).condition = "ground_truth" ∧
            g.groundTruth = true ∧
            (exSamplesFull.get ⟨0, by decide⟩).reverb_path =
              pathJoin (samplePathOf cat.name g.name) "ground_truth_reverb.wav"))) ∧
    exSamplesFull.length ≤ 2 ∧
    ((exGroupFull.anechoic = true ∧ exGroupFull.generated = true) ↔
      ∃ sp ∈ exSamplesFull, sp.condition = "generated") ∧
    ((exGroupFull.anechoic = true ∧ exGroupFull.groundTruth = true) ↔
      ∃ sp ∈ exSamplesFull, sp.condition = "ground_truth") := by
  have h := C5_samples_require_assets exCorpusFull exSamplesFull [] (by rfl)
  have h2 := h.2 "small" exGroupFull exSamplesFull (by rfl) rfl
  exact ⟨by rfl, h.1 (exSamplesFull.get ⟨0, by decide⟩) (by decide), h2.1, h2.2.1, h2.2.2⟩

/-- A group directory whose name carries an underscore with a non-numeric
trailing chunk, and no authored text file. -/
def exBadGroup : SampleDir :=
  { name := "room_a", isDir := true, anechoic := true, generated := true
  , groundTruth := false, textPrompt := none }

/-- A corpus containing the bad group. -/
def exBadCorpus : Corpus :=
  { rootExists := true
  , categories := [{ name := "small", isDir := true, groups := [exBadGroup] }] }

/-- C6 counterexample: for a group directory named room_a with no text
file, the position derivation does not default to 0: int() raises on the
non-numeric trailing chunk, prompt resolution fails and the whole catalog
scan aborts, contrary to the never-failing fallback the claim states. -/
theorem C6_counterexample :
    exBadGroup.textPrompt = none ∧
    containsChar exBadGroup.name '_' = true ∧
    strToInt (lastSplitPiece exBadGroup.name) = none ∧
    resolvePrompt "small" exBadGroup = none ∧
    load_evaluation_samples exBadCorpus = none :=
  ⟨rfl, rfl, rfl, rfl, rfl⟩

/-- C6 amended: the authored text file wins when present (stripped);
otherwise, with no underscore in the group name the position defaults to
0; with an underscore, the trailing chunk must parse as an integer or
prompt resolution (and with it the loading of the whole group) fails; a
parsed non-negative position selects the built-in phrase, falling back to
the first phrase of the category when the position reaches past the
defaults, and any unknown category yields the generic phrase. -/
theorem C6_prompt_resolution_rules (catName : String) (g : SampleDir) :
    (∀ t, g.textPrompt = some t → resolvePrompt catName g = some (pyStrip t)) ∧
    (g.textPrompt = none → containsChar g.name '_' = false →
      resolvePrompt catName g = get_demo_text_prompt catName 0) ∧
    (g.textPrompt = none → containsChar g.name '_' = true →
      strToInt (lastSplitPiece g.name) = none →
      resolvePrompt catName g = none ∧
      (g.isDir = true → loadGroup catName g = none)) ∧
    (∀ n : Int, g.textPrompt = none → containsChar g.name '_' = true →
      strToInt (lastSplitPiece g.name) = some n →
      resolvePrompt catName g = get_demo_text_prompt catName n) ∧
    (promptsTable.find? (fun p => p.1 = catName) = none →
      ∀ n : Int, get_demo_text_prompt catName n = some ("A " ++ catName ++ " space")) ∧
    (∀ (ps : List String) (n : Nat),
      (promptsTable.find? (fun p => p.1 = catName)).map Prod.snd = some ps →
      (ps.length ≤ n → get_demo_text_prompt catName (n : Int) = ps.get? 0) ∧
      (n < ps.length → get_demo_text_prompt catName (n : Int) = ps.get? n)) := by
  refine ⟨fun t ht => ?_, fun h1 h2 => ?_, fun h1 h2 h3 => ⟨?_, fun hdir => ?_⟩,
    fun n h1 h2 h3 => ?_, fun hf n => ?_, fun ps n hf => ⟨fun hle => ?_, fun hlt => ?_⟩⟩
  · simp [resolvePrompt, ht]
  · simp [resolvePrompt, h1, h2]
  · simp [resolvePrompt, h1, h2, h3]
  · have hre : resolvePrompt catName g = none := by simp [resolvePrompt, h1, h2, h3]
    simp [loadGroup, hdir, hre]
  · simp [resolvePrompt, h1, h2, h3]
  · simp [get_demo_text_prompt, hf]
  · unfold get_demo_text_prompt
    rw [hf]
    show (if ((ps.length : Int) ≤ (n : Int)) then ps.get? 0 else pyIndex ps (n : Int)) =
      ps.get? 0
    rw [if_pos (by exact_mod_cast hle)]
  · unfold get_demo_text_prompt
    rw [hf]
    show (if ((ps.length : Int) ≤ (n : Int)) then ps.get? 0 else pyIndex ps (n : Int)) =
      ps.get? n
    rw [if_neg (by exact_mod_cast Nat.not_le.mpr hlt)]
    unfold pyIndex
    rw [if_pos (Int.natCast_nonneg n)]
    simp

/-- A group directory with no underscore in its name and no text file. -/
def exPlainGroup : SampleDir :=
  { name := "room", isDir := true, anechoic := true, generated := true
  , groundTruth := false, textPrompt := none }

/-- A group directory with a numeric trailing chunk and no text file. -/
def exNumGroup : SampleDir :=
  { name := "s_1", isDir := true, anechoic := true, generated := true
  , groundTruth := false, textPrompt := none }

/-- The built-in phrases for the small category. -/
def smallPrompts : List String :=
  [ "A small tiled bathroom with hard surfaces and minimal absorption"
  , "A compact bedroom with carpet flooring and soft furnishings" ]

/-- C6 amended witness: the rules applied at concrete group directories
covering the authored-text, no-underscore, non-numeric (failing), numeric,
unknown-category, out-of-range and in-range cases. -/
theorem C6_prompt_resolution_rules_witness :
    resolvePrompt "small" exGroupFull = some (pyStrip "a room") ∧
    resolvePrompt "small" exPlainGroup = get_demo_text_prompt "small" 0 ∧
    resolvePrompt "small" exBadGroup = none ∧
    loadGroup "small" exBadGroup = none ∧
    resolvePrompt "small" exNumGroup = get_demo_text_prompt "small" 1 ∧
    get_demo_text_prompt "weird" 7 = some ("A " ++ "weird" ++ " space") ∧
    get_demo_text_prompt "small" ((5 : Nat) : Int) = smallPrompts.get? 0 ∧
    get_demo_text_prompt "small" ((1 : Nat) : Int) = smallPrompts.get? 1 := by
  have hA := C6_prompt_resolution_rules "small" exGroupFull
  have hB := C6_prompt_resolution_rules "small" exPlainGroup
  have hC := C6_prompt_resolution_rules "small" exBadGroup
  have hD := C6_prompt_resolution_rules "small" exNumGroup
  have hE := C6_prompt_resolution_rules "weird" exGroupFull
  exact ⟨hA.1 "a room" rfl, hB.2.1 rfl rfl, (hC.2.2.1 rfl rfl rfl).1,
    (hC.2.2.1 rfl rfl rfl).2 rfl, hD.2.2.2.1 1 rfl rfl rfl, hE.2.2.2.2.1 rfl 7,
    (hA.2.2.2.2.2 smallPrompts 5 rfl).1 (by decide),
    (hA.2.2.2.2.2 smallPrompts 1 rfl).2 (by decide)⟩

/-! Sample-id structure: helpers for C10. -/

/-- The category-group prefixes of the directory entries of one category,
in listdir order. -/
def catPrefixes (cat : CategoryDir) : List String :=
  (cat.groups.filter (fun g => g.isDir)).map (fun g => cat.name ++ "_" ++ g.name)

/-- The category-group prefixes of a whole corpus listing. -/
def dirPrefixesList : List CategoryDir → List String
  | [] => []
  | cat :: cs => (if cat.isDir then catPrefixes cat else []) ++ dirPrefixesList cs

/-- The category-group prefixes of a corpus. -/
def dirPrefixes (c : Corpus) : List String := dirPrefixesList c.categories

/-- The pair that determines a sample id: its category-group prefix and
its condition tag. -/
def sampleKey (sp : Sample) : String × String :=
  (sp.category ++ "_" ++ sp.sample_dir, sp.condition)

theorem append_right_inj_str (p1 p2 s : String) (h : p1 ++ s = p2 ++ s) : p1 = p2 := by
  have hd := congrArg String.data h
  rw [String.data_append, String.data_append] at hd
  exact String.ext (List.append_cancel_right hd)

theorem last_char_of_append (p s : String) (c : Char)
    (h : s.data.getLast? = some c) : (p ++ s).data.getLast? = some c := by
  rw [String.data_append, List.getLast?_append, h]
  rfl

theorem key_to_id_inj (p1 p2 c1 c2 : String)
    (h1 : c1 = "generated" ∨ c1 = "ground_truth")
    (h2 : c2 = "generated" ∨ c2 = "ground_truth")
    (h : p1 ++ "_" ++ c1 = p2 ++ "_" ++ c2) : p1 = p2 ∧ c1 = c2 := by
  rcases h1 with h1 | h1 <;> rcases h2 with h2 | h2 <;> rw [h1, h2] at h
  · exact ⟨append_right_inj_str p1 p2 "_"
      (append_right_inj_str (p1 ++ "_") (p2 ++ "_") "generated" h), h1.trans h2.symm⟩
  · have ha : ((p1 ++ "_") ++ "generated").data.getLast? = some 'd' :=
      last_char_of_append (p1 ++ "_") "generated" 'd' (by decide)
    have hb : ((p2 ++ "_") ++ "ground_truth").data.getLast? = some 'h' :=
      last_char_of_append (p2 ++ "_") "ground_truth" 'h' (by decide)
    rw [h, hb] at ha
    exact absurd (Option.some.inj ha) (by decide)
  · have ha : ((p1 ++ "_") ++ "ground_truth").data.getLast? = some 'h' :=
      last_char_of_append (p1 ++ "_") "ground_truth" 'h' (by decide)
    have hb : ((p2 ++ "_") ++ "generated").data.getLast? = some 'd' :=
      last_char_of_append (p2 ++ "_") "generated" 'd' (by decide)
    rw [h, hb] at ha
    exact absurd (Option.some.inj ha) (by decide)
  · exact ⟨append_right_inj_str p1 p2 "_"
      (append_right_inj_str (p1 ++ "_") (p2 ++ "_") "ground_truth" h), h1.trans h2.symm⟩

theorem loadGroup_keys_nodup (catName : String) (g : SampleDir) (l : List Sample)
    (h : loadGroup catName g = some l) : (l.map sampleKey).Nodup := by
  unfold loadGroup at h
  by_cases hdir : g.isDir = false
  · rw [if_pos hdir] at h
    rw [← Option.some.inj h]
    simp
  · rw [if_neg hdir] at h
    cases hre : resolvePrompt catName g with
    | none => rw [hre] at h; exact absurd h (by simp)
    | some tp =>
      rw [hre] at h
      have hl := (Option.some.inj h).symm
      subst hl
      cases han : g.anechoic <;> cases hgen : g.generated <;> cases hgt : g.groundTruth <;>
        simp [sampleKey, mkSample]

theorem loadGroup_key_mem (catName : String) (g : SampleDir) (l : List Sample)
    (k : String × String) (h : loadGroup catName g = some l) (hk : k ∈ l.map sampleKey) :
    k.1 = catName ++ "_" ++ g.name ∧ (k.2 = "generated" ∨ k.2 = "ground_truth") := by
  rcases List.mem_map.mp hk with ⟨sp, hsp, hkey⟩
  rcases loadGroup_mem catName g l sp h hsp with ⟨_, _, hcat, hdirn, _, _, hcond⟩
  subst hkey
  constructor
  · show sp.category ++ "_" ++ sp.sample_dir = catName ++ "_" ++ g.name
    rw [hcat, hdirn]
  · rcases hcond with ⟨hc, _, _⟩ | ⟨hc, _, _⟩
    · exact Or.inl hc
    · exact Or.inr hc

theorem loadGroups_keys (catName : String) :
    ∀ (gs : List SampleDir) (L : List Sample),
      loadGroups catName gs = some L →
      ((gs.filter (fun g => g.isDir)).map (fun g => catName ++ "_" ++ g.name)).Nodup →
      (L.map sampleKey).Nodup ∧
      ∀ k ∈ L.map sampleKey,
        k.1 ∈ (gs.filter (fun g => g.isDir)).map (fun g => catName ++ "_" ++ g.name) ∧
        (k.2 = "generated" ∨ k.2 = "ground_truth")
  | [], L, h, _ => by
    have hL : L = [] := (Option.some.inj h).symm
    subst hL
    exact ⟨by simp, by simp⟩
  | g :: gs, L, h, hnd => by
    rcases loadGroups_inversion catName g gs L h with ⟨l, rest, h1, h2, hL⟩
    subst hL
    by_cases hdir : g.isDir = true
    · have hfil : (g :: gs).filter (fun g2 => g2.isDir) =
          g :: gs.filter (fun g2 => g2.isDir) := by
        simp [List.filter_cons, hdir]
      rw [hfil] at hnd ⊢
      rw [List.map_cons] at hnd ⊢
      have hnotin := (List.nodup_cons.mp hnd).1
      have hnd2 := (List.nodup_cons.mp hnd).2
      have IH := loadGroups_keys catName gs rest h2 hnd2
      constructor
      · rw [List.map_append, List.nodup_append]
        refine ⟨loadGroup_keys_nodup catName g l h1, IH.1, ?_⟩
        intro k hk1 hk2
        have hp1 := (loadGroup_key_mem catName g l k h1 hk1).1
        have hp2 := (IH.2 k hk2).1
        rw [hp1] at hp2
        exact hnotin hp2
      · intro k hk
        rw [List.map_append, List.mem_append] at hk
        rcases hk with hk | hk
        · rcases loadGroup_key_mem catName g l k h1 hk with ⟨hp, hc⟩
          exact ⟨by rw [hp]; exact List.mem_cons_self _ _, hc⟩
        · rcases IH.2 k hk with ⟨hp, hc⟩
          exact ⟨List.mem_cons_of_mem _ hp, hc⟩
    · have hdirf : g.isDir = false := by
        cases hd : g.isDir
        · rfl
        · exact absurd hd hdir
      have hl : l = [] := by
        unfold loadGroup at h1
        rw [if_pos hdirf] at h1
        exact (Option.some.inj h1).symm
      subst hl
      have hfil : (g :: gs).filter (fun g2 => g2.isDir) =
          gs.filter (fun g2 => g2.isDir) := by
        simp [List.filter_cons, hdirf]
      rw [hfil] at hnd ⊢
      simpa using loadGroups_keys catName gs rest h2 hnd

theorem loadCategories_keys :
    ∀ (cats : List CategoryDir) (L : List Sample),
      loadCategories cats = some L → (dirPrefixesList cats).Nodup →
      (L.map sampleKey).Nodup ∧
      ∀ k ∈ L.map sampleKey, k.1 ∈ dirPrefixesList cats ∧
        (k.2 = "generated" ∨ k.2 = "ground_truth")
  | [], L, h, _ => by
    have hL : L = [] := (Option.some.inj h).symm
    subst hL
    exact ⟨by simp, by simp⟩
  | c0 :: cs, L, h, hnd => by
    rcases loadCategories_inversion c0 cs L h with ⟨l, rest, h1, h2, hL⟩
    subst hL
    by_cases hdir : c0.isDir = true
    · have hpre : dirPrefixesList (c0 :: cs) = catPrefixes c0 ++ dirPrefixesList cs := by
        simp [dirPrefixesList, hdir]
      rw [hpre] at hnd ⊢
      rcases List.nodup_append.mp hnd with ⟨hnd1, hnd2, hdisj⟩
      have hload : loadGroups c0.name c0.groups = some l := by
        unfold loadCategory at h1
        rw [if_neg (by simp [hdir])] at h1
        exact h1
      have hG := loadGroups_keys c0.name c0.groups l hload hnd1
      have IH := loadCategories_keys cs rest h2 hnd2
      constructor
      · rw [List.map_append, List.nodup_append]
        refine ⟨hG.1, IH.1, ?_⟩
        intro k hk1 hk2
        exact hdisj ((hG.2 k hk1).1) ((IH.2 k hk2).1)
      · intro k hk
        rw [List.map_append, List.mem_append] at hk
        rcases hk with hk | hk
        · rcases hG.2 k hk with ⟨hp, hc⟩
          exact ⟨List.mem_append.mpr (Or.inl hp), hc⟩
        · rcases IH.2 k hk with ⟨hp, hc⟩
          exact ⟨List.mem_append.mpr (Or.inr hp), hc⟩
    · have hdirf : c0.isDir = false := by
        cases hd : c0.isDir
        · rfl
        · exact absurd hd hdir
      have hl : l = [] := by
        unfold loadCategory at h1
        rw [if_pos hdirf] at h1
        exact (Option.some.inj h1).symm
      subst hl
      have hpre : dirPrefixesList (c0 :: cs) = dirPrefixesList cs := by
        simp [dirPrefixesList, hdirf]
      rw [hpre] at hnd ⊢
      simpa using loadCategories_keys cs rest h2 hnd

theorem load_keys (c : Corpus) (samples : List Sample) (msgs : List Msg)
    (h : load_evaluation_samples c = some (samples, msgs))
    (hnd : (dirPrefixes c).Nodup) :
    (samples.map sampleKey).Nodup ∧
    ∀ k ∈ samples.map sampleKey, k.2 = "generated" ∨ k.2 = "ground_truth" := by
  unfold load_evaluation_samples at h
  by_cases hroot : c.rootExists = false
  · rw [if_pos hroot] at h
    have hs : ([] : List Sample) = samples := congrArg Prod.fst (Option.some.inj h)
    rw [← hs]
    exact ⟨by simp, by simp⟩
  · rw [if_neg hroot] at h
    cases hcats : loadCategories c.categories with
    | none => rw [hcats] at h; exact absurd h (by simp)
    | some L =>
      rw [hcats] at h
      have hL : L = samples := congrArg Prod.fst (Option.some.inj h)
      rw [hL] at hcats
      have hck := loadCategories_keys c.categories samples hcats hnd
      exact ⟨hck.1, fun k hk => (hck.2 k hk).2⟩

theorem load_id_eq_key (c : Corpus) (samples : List Sample) (msgs : List Msg)
    (sp : Sample) (h : load_evaluation_samples c = some (samples, msgs))
    (hm : sp ∈ samples) :
    sp.id = (sampleKey sp).1 ++ "_" ++ (sampleKey sp).2 := by
  rcases load_mem c samples msgs sp h hm with ⟨cat, _, _, g, _, l, hgl, hspl⟩
  rcases loadGroup_mem cat.name g l sp hgl hspl with ⟨_, _, hcat, hdirn, _, hid, _⟩
  rw [hid]
  show cat.name ++ "_" ++ g.name ++ "_" ++ sp.condition =
    (sp.category ++ "_" ++ sp.sample_dir) ++ "_" ++ sp.condition
  rw [hcat, hdirn]

/-- A corpus with two distinct (category, group) pairs whose
concatenated names collide: category a with group b_x, and category a_b
with group x. -/
def exCollideCorpus : Corpus :=
  { rootExists := true
  , categories :=
    [ { name := "a", isDir := true
      , groups := [{ name := "b_x", isDir := true, anechoic := true
                   , generated := true, groundTruth := false, textPrompt := some "p" }] }
    , { name := "a_b", isDir := true
      , groups := [{ name := "x", isDir := true, anechoic := true
                   , generated := true, groundTruth := false, textPrompt := some "p" }] } ] }

/-- The samples the loader emits for the colliding corpus. -/
def exCollideSamples : List Sample :=
  ((load_evaluation_samples exCollideCorpus).getD ([], [])).1

/-- C10 counterexample: distinct (category, group-directory) pairs do not
guarantee distinct sample ids: with category a group b_x and category a_b
group x, both emitted samples carry the id a_b_x_generated. -/
theorem C10_counterexample :
    (exCollideSamples.map (fun sp => (sp.category, sp.sample_dir))).Nodup ∧
    exCollideSamples.map Sample.id = ["a_b_x_generated", "a_b_x_generated"] ∧
    ¬ (exCollideSamples.map Sample.id).Nodup := by
  refine ⟨by decide, by decide, by decide⟩

/-- C10 amended: a group emitting both variants emits exactly the
generated sample followed by the ground-truth sample, sharing the text
prompt and the anechoic reference, with ids differing only in the
trailing condition tag; and all catalog ids are distinct whenever the
concatenated category-underscore-group strings of the corpus are
distinct (distinct (category, group) pairs alone are not enough). -/
theorem C10_paired_samples_and_id_uniqueness (c : Corpus) (samples : List Sample)
    (msgs : List Msg) (h : load_evaluation_samples c = some (samples, msgs))
    (hnd : (dirPrefixes c).Nodup) :
    (samples.map Sample.id).Nodup ∧
    (∀ (catName : String) (g : SampleDir) (s1 s2 : Sample),
      loadGroup catName g = some [s1, s2] →
      s1.text_prompt = s2.text_prompt ∧
      s1.anechoic_path = s2.anechoic_path ∧
      s1.condition = "generated" ∧ s2.condition = "ground_truth" ∧
      s1.id = catName ++ "_" ++ g.name ++ "_" ++ "generated" ∧
      s2.id = catName ++ "_" ++ g.name ++ "_" ++ "ground_truth") := by
  constructor
  · have hk := load_keys c samples msgs h hnd
    have hmap : samples.map Sample.id =
        (samples.map sampleKey).map (fun k => k.1 ++ "_" ++ k.2) := by
      rw [List.map_map]
      apply List.map_congr_left
      intro sp hsp
      exact load_id_eq_key c samples msgs sp h hsp
    rw [hmap]
    apply List.Nodup.map_on ?_ hk.1
    intro x hx y hy hxy
    rcases key_to_id_inj x.1 y.1 x.2 y.2 (hk.2 x hx) (hk.2 y hy) hxy with ⟨ha, hb⟩
    exact Prod.ext ha hb
  · intro catName g s1 s2 hgl
    unfold loadGroup at hgl
    by_cases hdir : g.isDir = false
    · rw [if_pos hdir] at hgl
      exact absurd (Option.some.inj hgl) (by simp)
    · rw [if_neg hdir] at hgl
      cases hre : resolvePrompt catName g with
      | none => rw [hre] at hgl; exact absurd hgl (by simp)
      | some tp =>
        rw [hre] at hgl
        have hl := Option.some.inj hgl
        cases han : g.anechoic <;> cases hgen : g.generated <;> cases hgt : g.groundTruth <;>
          simp [han, hgen, hgt] at hl
        rcases hl with ⟨hs1, hs2⟩
        rw [← hs1, ← hs2]
        exact ⟨rfl, rfl, rfl, rfl, rfl, rfl⟩

/-- C10 amended witness: the theorem applied to the one-group corpus,
with the pair clause exercised at its two emitted samples. -/
theorem C10_paired_samples_and_id_uniqueness_witness :
    (dirPrefixes exCorpusFull).Nodup ∧
    (exSamplesFull.map Sample.id).Nodup ∧
    exGenSample.text_prompt = exGtSample.text_prompt ∧
    exGenSample.anechoic_path = exGtSample.anechoic_path ∧
    exGenSample.condition = "generated" ∧ exGtSample.condition = "ground_truth" ∧
    exGenSample.id = "small" ++ "_" ++ exGroupFull.name ++ "_" ++ "generated" ∧
    exGtSample.id = "small" ++ "_" ++ exGroupFull.name ++ "_" ++ "ground_truth" := by
  have h := C10_paired_samples_and_id_uniqueness exCorpusFull exSamplesFull []
    (by rfl) (by decide)
  have h2 := h.2 "small" exGroupFull exGenSample exGtSample (by rfl)
  exact ⟨by decide, h.1, h2.1, h2.2.1, h2.2.2.1, h2.2.2.2.1, h2.2.2.2.2.1, h2.2.2.2.2.2⟩

end Text2Reverb
